import Mathlib

/-!
Verification of the VGAP Run Orchestration frontend and its orchestration
contract.  Definitions are shallow embeddings of the TypeScript sources in
`frontend/src/pages` (Runs.tsx, RunDetail, Dashboard, CreateRun, Reports,
ErrorBoundary); components of the backend orchestration core that are not
part of the frontend sources are modelled from the specification and are
marked as such in their doc comments.
-/

namespace VGAP

/-- Run status values used throughout the frontend and the orchestration
spec: `pending`, `queued`, `running`, `completed`, `failed`, `cancelled`. -/
inductive RunStatus
  | pending
  | queued
  | running
  | completed
  | failed
  | cancelled
deriving DecidableEq, Repr, Fintype

/-- The status string as it appears in API payloads and UI comparisons. -/
def RunStatus.str : RunStatus → String
  | .pending => "pending"
  | .queued => "queued"
  | .running => "running"
  | .completed => "completed"
  | .failed => "failed"
  | .cancelled => "cancelled"

/-- A run is terminal when no further status transition is expected. -/
def RunStatus.terminal : RunStatus → Bool
  | .completed => true
  | .failed => true
  | .cancelled => true
  | _ => false

/-! ## Pagination on the runs list (Runs.tsx)

`const limit = 20`, `const totalPages = Math.ceil(total / limit)`,
`Showing {page * limit + 1} to {Math.min((page + 1) * limit, total)} of
{total}`, `disabled={page === 0}` on Previous and
`disabled={page >= totalPages - 1}` on Next. -/

/-- Page size of the runs list (`const limit = 20`). -/
def runsPageLimit : Nat := 20

/-- `Math.ceil(total / limit)` for a natural `total`, as computed by the
runs list. -/
def totalPages (total : Nat) : Nat := (total + runsPageLimit - 1) / runsPageLimit

/-- First entry number displayed: `page * limit + 1`. -/
def pageFirstEntry (page : Nat) : Nat := page * runsPageLimit + 1

/-- Last entry number displayed: `Math.min((page + 1) * limit, total)`. -/
def pageLastEntry (page total : Nat) : Nat :=
  min ((page + 1) * runsPageLimit) total

/-- The Previous button condition: `disabled={page === 0}`. -/
def prevDisabled (page : Nat) : Bool := page == 0

/-- The Next button condition: `disabled={page >= totalPages - 1}`. -/
def nextDisabled (page total : Nat) : Bool := totalPages total - 1 ≤ page

/-! ## Polling in the run detail view (RunDetail)

The run query uses `refetchInterval: (data) => status === 'running' ||
status === 'queued' ? 3000 : false`; the live status query uses
`enabled: status === 'running' || status === 'queued'` with
`refetchInterval: 2000`. -/

/-- Result of a react-query `refetchInterval` function: a polling interval
in milliseconds, or `false` (no refetch). -/
inductive Refetch
  | interval (ms : Nat)
  | off
deriving DecidableEq, Repr

/-- The run detail query's `refetchInterval` callback, over the status
string carried by the last response (`data?.data?.status`, which may be
absent). -/
def runDetailRefetchInterval (status : Option String) : Refetch :=
  if status = some "running" ∨ status = some "queued" then .interval 3000
  else .off

/-- The live status query's `enabled` condition
(`runData?.data?.status === 'running' || ... === 'queued'`). -/
def liveStatusEnabled (status : Option String) : Bool :=
  status == some "running" || status == some "queued"

/-- The live status query's configured interval (`refetchInterval: 2000`). -/
def liveStatusIntervalMs : Nat := 2000

/-- Effective polling of the live status query: a disabled react-query
query never refetches, an enabled one polls at its configured interval. -/
def liveStatusPolling (status : Option String) : Refetch :=
  if liveStatusEnabled status then .interval liveStatusIntervalMs else .off

/-- Claim C7: on the paginated runs list with page size 20, `totalPages`
is the ceiling of `total / 20` (characterised as the least page count
covering all entries), the displayed range is `page*20+1` through
`min ((page+1)*20) total`, Previous is disabled exactly on the first page,
and Next is disabled exactly when `page ≥ totalPages - 1`. -/
theorem runs_pagination_correct (total page : Nat) :
    runsPageLimit * totalPages total ≥ total ∧
    (0 < total → runsPageLimit * (totalPages total - 1) < total) ∧
    (totalPages 0 = 0) ∧
    pageFirstEntry page = page * 20 + 1 ∧
    pageLastEntry page total = min ((page + 1) * 20) total ∧
    (prevDisabled page = true ↔ page = 0) ∧
    (nextDisabled page total = true ↔ totalPages total - 1 ≤ page) := by
  refine ⟨?_, ?_, rfl, rfl, rfl, ?_, ?_⟩
  · simp only [totalPages, runsPageLimit]
    omega
  · intro ht
    simp only [totalPages, runsPageLimit]
    omega
  · simp [prevDisabled]
  · simp [nextDisabled]

/-- Closed witness for the pagination theorem at `total = 41`, `page = 1`:
41 entries give 3 pages, the second page shows entries 21 through 40, and
neither control is disabled there. -/
theorem runs_pagination_witness :
    runsPageLimit * totalPages 41 ≥ 41 ∧ 0 < 41 ∧
    runsPageLimit * (totalPages 41 - 1) < 41 ∧
    pageLastEntry 1 41 = 40 := by
  have h := runs_pagination_correct 41 1
  exact ⟨h.1, by decide, h.2.1 (by decide), by decide⟩

/-- Claim C8: the run detail view polls; its refetch-interval callback
returns 3000 ms exactly when the last observed status is `running` or
`queued` and no-refetch otherwise, the live status query is enabled and
polls at 2000 ms under the same condition, and both stop once the run is
terminal. -/
theorem run_detail_polling_correct (status : Option String) :
    (runDetailRefetchInterval status = .interval 3000 ↔
      status = some "running" ∨ status = some "queued") ∧
    (runDetailRefetchInterval status = .off ↔
      ¬(status = some "running" ∨ status = some "queued")) ∧
    (liveStatusEnabled status = true ↔
      status = some "running" ∨ status = some "queued") ∧
    (liveStatusPolling status = .interval 2000 ↔
      status = some "running" ∨ status = some "queued") ∧
    (∀ s : RunStatus, s.terminal = true →
      runDetailRefetchInterval (some s.str) = .off ∧
      liveStatusEnabled (some s.str) = false) := by
  refine ⟨?_, ?_, ?_, ?_, ?_⟩
  · unfold runDetailRefetchInterval
    by_cases h : status = some "running" ∨ status = some "queued" <;>
      simp [h]
  · unfold runDetailRefetchInterval
    by_cases h : status = some "running" ∨ status = some "queued" <;>
      simp [h]
  · unfold liveStatusEnabled
    constructor
    · intro h
      rcases Bool.or_eq_true_iff.mp h with h1 | h1
      · exact Or.inl (by simpa using h1)
      · exact Or.inr (by simpa using h1)
    · rintro (rfl | rfl) <;> simp
  · unfold liveStatusPolling liveStatusIntervalMs liveStatusEnabled
    by_cases h : status = some "running" ∨ status = some "queued"
    · rcases h with rfl | rfl <;> simp
    · push_neg at h
      have h1 : (status == some "running") = false := by
        simpa using h.1
      have h2 : (status == some "queued") = false := by
        simpa using h.2
      simp [h1, h2]
      tauto
  · intro s hs
    cases s <;> simp_all [RunStatus.terminal, RunStatus.str,
      runDetailRefetchInterval, liveStatusEnabled]

/-- Closed witness for the polling theorem applied at the concrete status
`running` and the concrete terminal status `completed`. -/
theorem run_detail_polling_witness :
    runDetailRefetchInterval (some "running") = .interval 3000 ∧
    runDetailRefetchInterval (some "completed") = .off := by
  constructor
  · exact (run_detail_polling_correct (some "running")).1.mpr (Or.inl rfl)
  · exact ((run_detail_polling_correct
      (some "completed")).2.2.2.2 .completed rfl).1

/-! ## Run status transition graph (spec §4.1) and UI transition guards

The UI guards are embedded from Runs.tsx: `RunActions` shows Start only
when `run.status === 'pending'` and Cancel only when `run.status ===
'running' || run.status === 'queued'`; `RunDetail` uses the same two
conditions.  The orchestrator that enforces the graph lives in the
backend (`vgap/api/routes/runs.py`, `vgap/services/run_service.py`),
which is not among the provided sources, and is modelled from the spec. -/

/-- An edge of the §4.1 status graph
`pending → queued → running → (completed | failed | cancelled)` with
cancellation reachable from `queued` or `running`. -/
def statusEdge : RunStatus → RunStatus → Bool
  | .pending, .queued => true
  | .queued, .running => true
  | .running, .completed => true
  | .running, .failed => true
  | .queued, .cancelled => true
  | .running, .cancelled => true
  | _, _ => false

/-- Requests that can ask for a run status transition. -/
inductive OrchEvent
  | start
  | dispatch
  | complete
  | fail
  | cancel
deriving DecidableEq, Repr

/-- Structured orchestration errors surfaced to the API caller. -/
inductive OrchError
  | invalidTransition
deriving DecidableEq, Repr

/-- Modelled from the spec: the Run Orchestrator state machine of §4.1.
The backend routes enforcing it are not among the provided sources.
`start` fires `pending → queued`, `dispatch` fires `queued → running`,
`complete` and `fail` close a running run, and `cancel` is honoured from
`queued` or `running` only; any other requested transition is rejected
with `InvalidTransitionError`. -/
def applyTransition : RunStatus → OrchEvent → Except OrchError RunStatus
  | .pending, .start => .ok .queued
  | .queued, .dispatch => .ok .running
  | .running, .complete => .ok .completed
  | .running, .fail => .ok .failed
  | .queued, .cancel => .ok .cancelled
  | .running, .cancel => .ok .cancelled
  | _, _ => .error .invalidTransition

instance : DecidableEq (Except OrchError RunStatus) := fun a b =>
  match a, b with
  | .ok a, .ok b =>
      if h : a = b then .isTrue (congrArg Except.ok h)
      else .isFalse (fun hh => h (Except.ok.inj hh))
  | .error a, .error b =>
      if h : a = b then .isTrue (congrArg Except.error h)
      else .isFalse (fun hh => h (Except.error.inj hh))
  | .ok _, .error _ => .isFalse (fun hh => Except.noConfusion hh)
  | .error _, .ok _ => .isFalse (fun hh => Except.noConfusion hh)

/-- Start action visibility in the runs list menu
(`run.status === 'pending'`). -/
def runActionsShowStart (status : String) : Bool := status == "pending"

/-- Cancel action visibility in the runs list menu
(`run.status === 'running' || run.status === 'queued'`). -/
def runActionsShowCancel (status : String) : Bool :=
  status == "running" || status == "queued"

/-- Start button visibility in the run detail header
(`run.status === 'pending'`). -/
def runDetailShowStart (status : String) : Bool := status == "pending"

/-- Cancel button visibility in the run detail header
(`run.status === 'running' || run.status === 'queued'`). -/
def runDetailShowCancel (status : String) : Bool :=
  status == "running" || status == "queued"

/-- Claim C1: every accepted transition of the (spec-modelled)
orchestrator follows the §4.1 graph and any other requested transition is
rejected with `InvalidTransitionError`; cancellation is accepted exactly
from `queued` or `running`; and both the runs list and the run detail
view offer Start exactly on `pending` and Cancel exactly on `running` or
`queued`. -/
theorem run_status_transitions_correct (s : RunStatus) (e : OrchEvent) :
    (∀ s', applyTransition s e = .ok s' → statusEdge s s' = true) ∧
    ((∀ s', applyTransition s e ≠ .ok s') →
      applyTransition s e = .error .invalidTransition) ∧
    (applyTransition s .cancel = .ok .cancelled ↔
      s = .queued ∨ s = .running) ∧
    (runActionsShowStart s.str = true ↔ s = .pending) ∧
    (runActionsShowCancel s.str = true ↔ s = .running ∨ s = .queued) ∧
    runDetailShowStart s.str = runActionsShowStart s.str ∧
    runDetailShowCancel s.str = runActionsShowCancel s.str := by
  cases s <;> cases e <;> decide

/-- Closed witness for the transition theorem: at `pending`, `start` is
accepted along a graph edge, while `cancel` is rejected with
`InvalidTransitionError`; at `running`, Cancel is offered and accepted. -/
theorem run_status_transitions_witness :
    statusEdge .pending .queued = true ∧
    applyTransition .pending .cancel = .error .invalidTransition ∧
    applyTransition .running .cancel = .ok .cancelled ∧
    runActionsShowCancel (RunStatus.running).str = true := by
  refine ⟨?_, ?_, ?_, ?_⟩
  · exact (run_status_transitions_correct .pending .start).1 .queued rfl
  · exact (run_status_transitions_correct .pending .cancel).2.1
      (by decide)
  · exact (run_status_transitions_correct .running .cancel).2.2.1.mpr
      (Or.inr rfl)
  · exact (run_status_transitions_correct .running .start).2.2.2.2.1.mpr
      (Or.inl rfl)

/-! ## Status-configuration lookup (Runs.tsx, RunDetail, Dashboard)

Each view renders a run's status through a record keyed by the status
string, with the fallback `statusConfig[run.status] || statusConfig.pending`.
The dashboard's table has no `cancelled` entry and no `text` field; its
label is the raw status string rendered alongside. -/

/-- Icon component referenced by a status configuration. -/
inductive IconRef
  | checkCircle
  | playCircle
  | xCircle
  | clock
deriving DecidableEq, Repr

/-- One entry of the `statusConfig` record in the runs list and the run
detail view. -/
structure StatusCfg where
  icon : IconRef
  color : String
  bg : String
  text : String
deriving DecidableEq, Repr

/-- One entry of the dashboard's `statusConfig` record (no `text`). -/
structure DashStatusCfg where
  icon : IconRef
  color : String
  bg : String
deriving DecidableEq, Repr

/-- The `pending` entry of the runs list table. -/
def runsListPendingCfg : StatusCfg :=
  ⟨.clock, "text-slate-400", "bg-slate-100 dark:bg-slate-700", "Pending"⟩

/-- `statusConfig` of the runs list (Runs.tsx lines 12-19). -/
def runsListStatusConfig : List (String × StatusCfg) :=
  [("completed", ⟨.checkCircle, "text-success-500",
      "bg-success-100 dark:bg-success-500/20", "Completed"⟩),
   ("running", ⟨.playCircle, "text-primary-500",
      "bg-primary-100 dark:bg-primary-500/20", "Running"⟩),
   ("failed", ⟨.xCircle, "text-danger-500",
      "bg-danger-100 dark:bg-danger-500/20", "Failed"⟩),
   ("pending", runsListPendingCfg),
   ("queued", ⟨.clock, "text-warning-500",
      "bg-warning-100 dark:bg-warning-500/20", "Queued"⟩),
   ("cancelled", ⟨.xCircle, "text-slate-400",
      "bg-slate-100 dark:bg-slate-700", "Cancelled"⟩)]

/-- `statusConfig` of the run detail view (same six entries). -/
def runDetailStatusConfig : List (String × StatusCfg) := runsListStatusConfig

/-- The `pending` entry of the dashboard table. -/
def dashboardPendingCfg : DashStatusCfg :=
  ⟨.clock, "text-slate-400", "bg-slate-100 dark:bg-slate-700"⟩

/-- `statusConfig` of the dashboard: five entries, no `cancelled`. -/
def dashboardStatusConfig : List (String × DashStatusCfg) :=
  [("completed", ⟨.checkCircle, "text-success-500",
      "bg-success-100 dark:bg-success-500/20"⟩),
   ("running", ⟨.playCircle, "text-primary-500",
      "bg-primary-100 dark:bg-primary-500/20"⟩),
   ("failed", ⟨.xCircle, "text-danger-500",
      "bg-danger-100 dark:bg-danger-500/20"⟩),
   ("pending", dashboardPendingCfg),
   ("queued", ⟨.clock, "text-warning-500",
      "bg-warning-100 dark:bg-warning-500/20"⟩)]

/-- `statusConfig[run.status] || statusConfig.pending` on the runs list. -/
def runsListConfigFor (status : String) : StatusCfg :=
  (runsListStatusConfig.lookup status).getD runsListPendingCfg

/-- `statusConfig[run.status] || statusConfig.pending` in the run detail
view. -/
def runDetailConfigFor (status : String) : StatusCfg :=
  (runDetailStatusConfig.lookup status).getD runsListPendingCfg

/-- `statusConfig[run.status] || statusConfig.pending` on the dashboard. -/
def dashboardConfigFor (status : String) : DashStatusCfg :=
  (dashboardStatusConfig.lookup status).getD dashboardPendingCfg

/-- Claim C9: in all three views the status-configuration lookup is
total: a known status yields its table entry, any unknown or missing
status falls back to the pending entry, so icon and colours are produced
for every status string; in particular the dashboard table, which has no
`cancelled` entry, renders `cancelled` with the pending configuration. -/
theorem status_config_lookup_total (s : String) :
    (∀ c, runsListStatusConfig.lookup s = some c → runsListConfigFor s = c) ∧
    (runsListStatusConfig.lookup s = none →
      runsListConfigFor s = runsListPendingCfg) ∧
    (∀ c, runDetailStatusConfig.lookup s = some c →
      runDetailConfigFor s = c) ∧
    (runDetailStatusConfig.lookup s = none →
      runDetailConfigFor s = runsListPendingCfg) ∧
    (∀ c, dashboardStatusConfig.lookup s = some c →
      dashboardConfigFor s = c) ∧
    (dashboardStatusConfig.lookup s = none →
      dashboardConfigFor s = dashboardPendingCfg) ∧
    dashboardStatusConfig.lookup "cancelled" = none ∧
    dashboardConfigFor "cancelled" = dashboardPendingCfg := by
  refine ⟨?_, ?_, ?_, ?_, ?_, ?_, by decide, by decide⟩
  · intro c h
    simp [runsListConfigFor, h]
  · intro h
    simp [runsListConfigFor, h]
  · intro c h
    simp [runDetailConfigFor, h]
  · intro h
    simp [runDetailConfigFor, h]
  · intro c h
    simp [dashboardConfigFor, h]
  · intro h
    simp [dashboardConfigFor, h]

/-- Closed witness for the lookup theorem at the unknown status string
`archived` and on the dashboard's missing `cancelled` entry. -/
theorem status_config_lookup_witness :
    runsListConfigFor "archived" = runsListPendingCfg ∧
    dashboardConfigFor "archived" = dashboardPendingCfg := by
  constructor
  · exact (status_config_lookup_total "archived").2.1 (by decide)
  · exact (status_config_lookup_total "archived").2.2.2.2.2.1 (by decide)

/-! ## User-visible error rendering (ErrorBoundary, CreateRun)

`ErrorBoundary.render` shows a code block containing
`this.state.error.toString()` when an error was caught.  CreateRun's
`createRunMutation.onError` puts an object `detail` into the structured
error panel (each entry rendered as its `code`, `message` and optional
`remediation`), shows a string `detail` as plain text, and shows any
other value as `JSON.stringify(detail, null, 2)`. -/

/-- A piece of error content displayed to the user: either a structured
code/message/remediation triple or raw text. -/
inductive ErrorDisplay
  | triple (code message : String) (remediation : Option String)
  | rawText (s : String)
deriving DecidableEq, Repr

/-- Whether a displayed error item is a structured triple. -/
def ErrorDisplay.isTriple : ErrorDisplay → Bool
  | .triple _ _ _ => true
  | .rawText _ => false

/-- `ErrorBoundary.render`: with a caught error present, the fallback UI
includes a code block whose content is `this.state.error.toString()`. -/
def errorBoundaryRender (error : Option String) : List ErrorDisplay :=
  match error with
  | some e => [.rawText e]
  | none => []

/-- One entry of a structured validation detail:
`(code, message, remediation?)`. -/
structure ValidationIssue where
  code : String
  message : String
  remediation : Option String
deriving DecidableEq, Repr

/-- The `StructuredError` shape expected from the server
(`message?`, `errors?`, `warnings?`). -/
structure StructuredError where
  message : Option String
  errors : List ValidationIssue
  warnings : List ValidationIssue
deriving DecidableEq, Repr

/-- The JSON value of `err.response?.data?.detail`, as discriminated by
`typeof` in the `onError` handler. -/
inductive Detail
  | nullD
  | strD (s : String)
  | objD (e : StructuredError)
  | numD (n : Int)
deriving Repr

/-- Error state of the CreateRun wizard after `onError`: the structured
panel and the plain-text panel (hidden when empty). -/
structure CreateRunErrState where
  structuredError : Option StructuredError
  simpleError : Option String
deriving Repr

/-- `createRunMutation.onError`: an object `detail` (JavaScript `typeof
detail === 'object' && detail !== null`, arrays included) becomes the
structured error; a string is shown as plain text; `null` is shown as the
JSON dump `"null"`; an absent detail makes `JSON.stringify` return
`undefined`, leaving no visible panel; a number is shown as its JSON
dump. -/
def onCreateRunError (detail : Option Detail) : CreateRunErrState :=
  match detail with
  | some (.objD e) => ⟨some e, none⟩
  | some (.strD s) => ⟨none, some s⟩
  | some (.numD n) => ⟨none, some (toString n)⟩
  | some .nullD => ⟨none, some "null"⟩
  | none => ⟨none, none⟩

/-- Rendering of the error entries of the structured panel (the
`structuredError.errors?.map` block only): each entry of `errors` is
shown as its `code`, its `message` and, when present, its `remediation`.
The panel's header line and its warnings are rendered separately, see
`renderStructuredPanel`. -/
def renderStructured (se : StructuredError) : List ErrorDisplay :=
  se.errors.map (fun e => .triple e.code e.message e.remediation)

/-- The header line of the structured panel:
`{structuredError.message || 'Validation Failed'}` (JavaScript `||`, so
an absent or empty message falls back to the default text). -/
def structuredHeaderText (se : StructuredError) : String :=
  match se.message with
  | some m => if m = "" then "Validation Failed" else m
  | none => "Validation Failed"

/-- The full structured-error panel: the header line as raw text, then
each error entry as its code/message/remediation triple, then each
warning's `message` as a raw-text line. -/
def renderStructuredPanel (se : StructuredError) : List ErrorDisplay :=
  .rawText (structuredHeaderText se) ::
    (renderStructured se ++ se.warnings.map (fun w => .rawText w.message))

/-- The full error content displayed by the CreateRun wizard: the
structured panel when present, plus the plain-text panel when present. -/
def renderCreateRunError (st : CreateRunErrState) : List ErrorDisplay :=
  (match st.structuredError with
   | some se => renderStructuredPanel se
   | none => []) ++
  (match st.simpleError with
   | some s => [.rawText s]
   | none => [])

/-- Claim C3 counterexample: the claim that every user-visible error is a
structured code/message/remediation triple fails on concrete inputs: the
ErrorBoundary displays the raw exception string of a caught error, and a
plain-string server detail is displayed as raw text, neither being a
triple. -/
theorem error_exposure_counterexample :
    errorBoundaryRender
        (some "TypeError: Cannot read properties of undefined") =
      [.rawText "TypeError: Cannot read properties of undefined"] ∧
    ErrorDisplay.isTriple
        (.rawText "TypeError: Cannot read properties of undefined")
      = false ∧
    renderCreateRunError (onCreateRunError
        (some (.strD "Internal Server Error"))) =
      [.rawText "Internal Server Error"] := by
  refine ⟨rfl, rfl, rfl⟩

/-- Claim C3 (amended): when the server returns a structured object
detail, the CreateRun panel shows its header line as raw text, each
error entry as its code/message/remediation triple with fields verbatim,
and each warning's message as raw text — so the triples among the
displayed items are exactly the verbatim error entries, while the
header and warnings reach the user as raw server text; additionally,
uncaught exceptions reach the user as the raw exception string through
the ErrorBoundary, and non-object details are shown as raw text. -/
theorem structured_error_render_verbatim (se : StructuredError) :
    renderCreateRunError (onCreateRunError (some (.objD se))) =
      .rawText (structuredHeaderText se) ::
        (se.errors.map (fun e => .triple e.code e.message e.remediation) ++
          se.warnings.map (fun w => .rawText w.message)) ∧
    (renderCreateRunError (onCreateRunError (some (.objD se)))).filter
        ErrorDisplay.isTriple =
      se.errors.map (fun e => .triple e.code e.message e.remediation) := by
  constructor
  · simp [onCreateRunError, renderCreateRunError, renderStructuredPanel,
      renderStructured]
  · simp only [onCreateRunError, renderCreateRunError,
      renderStructuredPanel, renderStructured, List.append_nil,
      List.filter_cons, List.filter_append]
    rw [show ErrorDisplay.isTriple
        (.rawText (structuredHeaderText se)) = false from rfl]
    simp only [Bool.false_eq_true, if_false]
    rw [List.filter_map, List.filter_map]
    have h1 : (ErrorDisplay.isTriple ∘ fun e : ValidationIssue =>
        ErrorDisplay.triple e.code e.message e.remediation) =
          fun _ => true := by
      funext e
      rfl
    have h2 : (ErrorDisplay.isTriple ∘ fun w : ValidationIssue =>
        ErrorDisplay.rawText w.message) = fun _ => false := by
      funext w
      rfl
    rw [h1, h2]
    simp

/-! ## Pre-flight validation on start (spec §4.1, §6)

The backend start route (`POST /runs/{id}/start`, pre-flight + queue per
the QA report) is not among the provided sources; the guard is modelled
from the spec.  The frontend rendering of the returned errors is embedded
above as `renderStructured`. -/

/-- The external Validator's result: blocking errors and non-blocking
warnings, each a `(code, message, remediation)` record. -/
structure ValidationResult where
  errors : List ValidationIssue
  warnings : List ValidationIssue
deriving Repr

/-- Modelled from the spec: the start request handler of the backend run
service (not among the provided sources).  The `pending → queued`
transition is guarded by a synchronous pre-flight validation pass; if
validation reports blocking errors the run stays `pending` and the errors
are returned to the caller verbatim, otherwise the run becomes `queued`. -/
def startRun (v : ValidationResult) : RunStatus × List ValidationIssue :=
  if v.errors.isEmpty then (.queued, []) else (.pending, v.errors)

/-- Claim C4: a start request whose pre-flight validation reports
blocking errors leaves the run `pending`, returns exactly the validator's
errors, and the frontend renders each returned error unchanged as its
code, message and remediation; without blocking errors the run becomes
`queued`. -/
theorem start_validation_guard (v : ValidationResult)
    (h : v.errors ≠ []) :
    (startRun v).1 = .pending ∧
    (startRun v).2 = v.errors ∧
    renderStructured ⟨some "Validation Failed", (startRun v).2,
        v.warnings⟩ =
      v.errors.map (fun e => .triple e.code e.message e.remediation) := by
  have he : v.errors.isEmpty = false := by
    cases hv : v.errors with
    | nil => exact absurd hv h
    | cons a t => rfl
  refine ⟨?_, ?_, ?_⟩
  · simp [startRun, he]
  · simp [startRun, he]
  · simp [startRun, he, renderStructured]

/-- Closed witness for the start guard at a concrete validator result
with one blocking error. -/
theorem start_validation_guard_witness :
    (startRun ⟨[⟨"E_MISSING_REF", "Reference genome missing",
        some "Upload a reference"⟩], []⟩).1 = .pending := by
  exact (start_validation_guard
    ⟨[⟨"E_MISSING_REF", "Reference genome missing",
        some "Upload a reference"⟩], []⟩ (by simp)).1

/-! ## Report generation freshness (spec §3, §6; docs part_008)

The report route (`POST /reports/{run_id}/generate`) is not among the
provided sources; it is modelled from the spec and the repository's
report-generation flow document: every invocation is supplied a fresh
identifier (a UUID, modelled as a monotone counter) and the current UTC
time (modelled as a strictly advancing clock), and appends a new record
instead of serving any cached one. -/

/-- A generated report bound to a run: fresh identifier and generation
timestamp. -/
structure ReportArtifact where
  reportId : Nat
  generatedAt : Nat
deriving DecidableEq, Repr

/-- State of the report generator for one run: the next fresh identifier,
the current clock, and the records produced so far. -/
structure ReportStore where
  nextId : Nat
  clock : Nat
  records : List ReportArtifact
deriving Repr

/-- All existing records are strictly older than the current counter and
clock. -/
def ReportStore.WF (st : ReportStore) : Prop :=
  ∀ r ∈ st.records, r.reportId < st.nextId ∧ r.generatedAt < st.clock

/-- Modelled from the spec: the report generation service (not among the
provided sources).  Each `generate` call creates a new artifact with a
fresh identifier and the current timestamp, appends it to the run's
records, and never reads a cache; the clock strictly advances between
consecutive invocations. -/
def generateReport (st : ReportStore) : ReportArtifact × ReportStore :=
  (⟨st.nextId, st.clock⟩,
   ⟨st.nextId + 1, st.clock + 1, st.records ++ [⟨st.nextId, st.clock⟩]⟩)

/-- Claim C2: two consecutive `generate` calls yield artifacts with
distinct identifiers and distinct timestamps; each call appends its
result as a new record, and (for a well-formed store) the result is never
one of the previously existing records — generation is not served from a
cache. -/
theorem report_generation_fresh (st : ReportStore) (h : st.WF) :
    ((generateReport st).1).reportId ≠
      ((generateReport (generateReport st).2).1).reportId ∧
    ((generateReport st).1).generatedAt ≠
      ((generateReport (generateReport st).2).1).generatedAt ∧
    (generateReport st).1 ∉ st.records ∧
    ((generateReport (generateReport st).2).1) ∉
      ((generateReport st).2).records ∧
    ((generateReport st).2).records = st.records ++ [(generateReport st).1] ∧
    ((generateReport st).2).WF := by
  refine ⟨by simp [generateReport], by simp [generateReport], ?_, ?_, rfl, ?_⟩
  · intro hmem
    have h1 := (h _ hmem).1
    simp [generateReport] at h1
  · intro hmem
    simp only [generateReport, List.mem_append, List.mem_singleton] at hmem
    rcases hmem with hmem | hmem
    · have h1 := (h _ hmem).1
      simp only [generateReport] at h1
      omega
    · simp [generateReport] at hmem
  · intro r hr
    simp only [generateReport, List.mem_append, List.mem_singleton] at hr
    rcases hr with hr | hr
    · have h1 := h _ hr
      simp only [generateReport]
      omega
    · subst hr
      simp [generateReport]

/-- Closed witness for report freshness starting from the empty store. -/
theorem report_generation_fresh_witness :
    ((generateReport ⟨0, 0, []⟩).1).reportId ≠
      ((generateReport (generateReport ⟨0, 0, []⟩).2).1).reportId := by
  exact (report_generation_fresh ⟨0, 0, []⟩ (by intro r hr; cases hr)).1

/-! ## Progress monotonicity (spec §4.1, §4.4)

The Orchestrator's progress computation lives in the backend
(`pipeline.py` `update_progress`, not among the provided sources) and is
modelled from the spec: run-level progress is the per-sample
stage-weighted completion averaged over samples, samples only move
forward through the stage sequence, and the Progress Reporter is a pure
read-side projection, so every poll observes the current value.  The run
detail view displays the polled value
(`liveStatus.progress || run.progress || 0`). -/

/-- The fixed relative stage weights of §4.1:
QC 15, mapping 30, variants 25, lineage 15, report 15. -/
def stageWeights : List Nat := [15, 30, 25, 15, 15]

/-- Weighted completion of a sample that has finished its first `k`
stages. -/
def sampleStagePct (k : Nat) : Nat := (stageWeights.take k).sum

/-- Modelled from the spec: run-level progress, the stage-weighted
per-sample completion averaged over the run's samples; each sample is
represented by its number of completed stages. -/
def runProgress (samples : List Nat) : Nat :=
  (samples.map sampleStagePct).sum / samples.length

/-- Modelled from the spec: one orchestration step advances exactly one
sample by one stage; samples never skip backwards. -/
inductive SampleAdvance : List Nat → List Nat → Prop
  | head (k : Nat) (t : List Nat) : SampleAdvance (k :: t) ((k + 1) :: t)
  | tail (k : Nat) {s t : List Nat} :
      SampleAdvance s t → SampleAdvance (k :: s) (k :: t)

/-- A sample advance preserves the number of samples. -/
theorem sampleAdvance_length {s t : List Nat} (h : SampleAdvance s t) :
    s.length = t.length := by
  induction h with
  | head k t => rfl
  | tail k _ ih => simpa using ih

/-- Completing one more stage never lowers a sample's weighted
completion. -/
theorem sampleStagePct_mono (k : Nat) :
    sampleStagePct k ≤ sampleStagePct (k + 1) := by
  unfold sampleStagePct
  rcases Nat.lt_or_ge k stageWeights.length with hk | hk
  · rw [List.take_succ, List.sum_append]
    exact Nat.le_add_right _ _
  · rw [List.take_of_length_le hk, List.take_of_length_le (by omega)]

/-- A sample advance never lowers the total weighted completion. -/
theorem sampleAdvance_sum_le {s t : List Nat} (h : SampleAdvance s t) :
    (s.map sampleStagePct).sum ≤ (t.map sampleStagePct).sum := by
  induction h with
  | head k t =>
      simpa using Nat.add_le_add_right (sampleStagePct_mono k)
        ((t.map sampleStagePct).sum)
  | tail k _ ih =>
      simpa using Nat.add_le_add_left ih (sampleStagePct k)

/-- Claim C5: along any orchestration trace (a sequence of status polls,
each reading the current state), run progress is monotonically
non-decreasing, so the value displayed on a later poll never regresses
below an earlier one. -/
theorem run_progress_monotone {s t : List Nat}
    (h : Relation.ReflTransGen SampleAdvance s t) :
    runProgress s ≤ runProgress t := by
  induction h with
  | refl => exact le_refl _
  | tail hst hadv ih =>
      refine le_trans ih ?_
      unfold runProgress
      rw [← sampleAdvance_length hadv]
      exact Nat.div_le_div_right (sampleAdvance_sum_le hadv)

/-- Closed witness for progress monotonicity on a concrete two-sample
trace: the first sample completes QC, then mapping. -/
theorem run_progress_monotone_witness :
    runProgress [0, 0] ≤ runProgress [2, 0] := by
  exact run_progress_monotone
    (Relation.ReflTransGen.tail
      (Relation.ReflTransGen.single (SampleAdvance.head 0 [0]))
      (SampleAdvance.head 1 [0]))

/-! ## File grouping in the create-run wizard (CreateRun.processFiles)

`processFiles` groups dropped or selected files into a JavaScript object
keyed by `name.replace(/_R[12].*\.fastq.*$/i, '').replace(/\.fastq.*$/i, '')`,
assigns each file to the group's `r1` slot when `/_R1/i` or `/_1\.fastq/i`
matches, to `r2` when `/_R2/i` or `/_2\.fastq/i` matches, and to `r1`
otherwise (later assignments overwrite earlier ones), then calls
`addSample(r1, r2)` for every group with an `r1`.  Object keys are
modelled in insertion order; JavaScript would order integer-like keys
first, which does not affect which samples are added. -/

/-- Case-folded character list of a file name (the `i` flag of the
JavaScript regexes, ASCII case folding). -/
def lowerChars (s : String) : List Char := s.toList.map Char.toLower

/-- Substring occurrence test on character lists. -/
def hasSubstr : List Char → List Char → Bool
  | pat, [] => pat.isEmpty
  | pat, c :: t => pat.isPrefixOf (c :: t) || hasSubstr pat t

/-- Index of the first suffix satisfying `p` (the leftmost regex match
position). -/
def findSuffixIdx (p : List Char → Bool) : List Char → Option Nat
  | [] => if p [] then some 0 else none
  | c :: t => if p (c :: t) then some 0 else (findSuffixIdx p t).map (· + 1)

/-- The literal `.fastq` of the regexes, lower case. -/
def fastqPat : List Char := ".fastq".toList

/-- Whether `/_R[12].*\.fastq.*$/i` matches starting at this suffix: the
suffix opens with `_R1` or `_R2` (case folded) and `.fastq` occurs later
in it. -/
def rSegMatchAt (ls : List Char) : Bool :=
  (("_r1".toList).isPrefixOf ls || ("_r2".toList).isPrefixOf ls) &&
    hasSubstr fastqPat (ls.drop 3)

/-- `name.replace(/_R[12].*\.fastq.*$/i, '')`: delete from the leftmost
match to the end. -/
def stripRSeg (name : List Char) : List Char :=
  match findSuffixIdx rSegMatchAt (name.map Char.toLower) with
  | some i => name.take i
  | none => name

/-- `name.replace(/\.fastq.*$/i, '')`: delete from the first `.fastq` to
the end. -/
def stripFastqExt (name : List Char) : List Char :=
  match findSuffixIdx (fun ls => fastqPat.isPrefixOf ls)
      (name.map Char.toLower) with
  | some i => name.take i
  | none => name

/-- The sample identifier computed from a file name (used both by
`processFiles` for grouping and by `addSample` for the sample's name). -/
def sampleIdOf (name : String) : String :=
  ⟨stripFastqExt (stripRSeg name.toList)⟩

/-- `/_R1/i.test(name) || /_1\.fastq/i.test(name)`. -/
def testR1 (name : String) : Bool :=
  hasSubstr "_r1".toList (lowerChars name) ||
    hasSubstr "_1.fastq".toList (lowerChars name)

/-- `/_R2/i.test(name) || /_2\.fastq/i.test(name)`. -/
def testR2 (name : String) : Bool :=
  hasSubstr "_r2".toList (lowerChars name) ||
    hasSubstr "_2.fastq".toList (lowerChars name)

/-- One group of the `groups` object: the current `r1` and `r2` files. -/
structure FileGroup where
  r1 : Option String
  r2 : Option String
deriving DecidableEq, Repr

/-- The fresh group `{}` created on first sight of a key. -/
def emptyGroup : FileGroup := ⟨none, none⟩

/-- The three-branch assignment of `processFiles`: `r1` on an R1 match,
else `r2` on an R2 match, else `r1` by default. -/
def assignFile (g : FileGroup) (name : String) : FileGroup :=
  if testR1 name then { g with r1 := some name }
  else if testR2 name then { g with r2 := some name }
  else { g with r1 := some name }

/-- Update the group at `key` in an insertion-ordered association list,
creating it at the end when absent (JavaScript object update). -/
def updateGroups (gs : List (String × FileGroup)) (key : String)
    (f : FileGroup → FileGroup) : List (String × FileGroup) :=
  match gs with
  | [] => [(key, f emptyGroup)]
  | (k, g) :: rest =>
      if k = key then (k, f g) :: rest
      else (k, g) :: updateGroups rest key f

/-- The grouping pass of `processFiles` (`files.forEach(...)`). -/
def buildGroups (files : List String) : List (String × FileGroup) :=
  files.foldl
    (fun gs name => updateGroups gs (sampleIdOf name) (fun g => assignFile g name))
    []

/-- A sample entry appended by `addSample`: the sample identifier
recomputed from the R1 file name, the R1 file and the optional R2 file. -/
structure SampleEntry where
  name : String
  r1 : String
  r2 : Option String
deriving DecidableEq, Repr

/-- `processFiles`: build the groups, then add a sample for every group
having an `r1` (`Object.entries(groups).forEach`, `addSample`). -/
def processFiles (files : List String) : List SampleEntry :=
  (buildGroups files).filterMap (fun kg =>
    match kg.2.r1 with
    | some r1 => some ⟨sampleIdOf r1, r1, kg.2.r2⟩
    | none => none)

/-- Claim-side assignment: a name matching `_R1` or `_1.fastq` is the R1
file, and every name matching neither the R1 nor the R2 patterns also
defaults to R1. -/
def claimIsR1 (name : String) : Bool := testR1 name || !testR2 name

/-- Claim-side assignment: a name matching `_R2` or `_2.fastq` (and not
an R1 match) is the R2 file. -/
def claimIsR2 (name : String) : Bool := !testR1 name && testR2 name

/-- The files of the group keyed `k`. -/
def groupFiles (files : List String) (k : String) : List String :=
  files.filter (fun n => sampleIdOf n == k)

/-- The R1 file of the group keyed `k`: the last of its files assigned
as R1. -/
def groupR1 (files : List String) (k : String) : Option String :=
  ((groupFiles files k).filter claimIsR1).getLast?

/-- The R2 file of the group keyed `k`: the last of its files assigned
as R2. -/
def groupR2 (files : List String) (k : String) : Option String :=
  ((groupFiles files k).filter claimIsR2).getLast?

/-- Distinct sample identifiers in order of first appearance. -/
def firstOccurKeys : List String → List String
  | [] => []
  | a :: t => a :: (firstOccurKeys t).filter (fun b => b ≠ a)

/-- Claim-side restatement of `processFiles`: group the files by their
sample identifier, give each group the last file assigned as R1 and the
last assigned as R2, and add one sample exactly for each group that has
an R1 file, named by the group's identifier, with R2 optional. -/
def processFilesSpec (files : List String) : List SampleEntry :=
  (firstOccurKeys (files.map sampleIdOf)).filterMap (fun k =>
    match groupR1 files k with
    | some r1 => some ⟨k, r1, groupR2 files k⟩
    | none => none)

/-- Grouping from an arbitrary initial object, the generalisation of
`buildGroups` used in the proofs below. -/
def buildGroupsFrom (gs : List (String × FileGroup)) (files : List String) :
    List (String × FileGroup) :=
  files.foldl
    (fun gs name => updateGroups gs (sampleIdOf name) (fun g => assignFile g name))
    gs

theorem buildGroups_eq_from (files : List String) :
    buildGroups files = buildGroupsFrom [] files := rfl

theorem assignFile_r1 (g : FileGroup) (n : String) :
    (assignFile g n).r1 = if claimIsR1 n then some n else g.r1 := by
  unfold assignFile claimIsR1
  by_cases h1 : testR1 n <;> by_cases h2 : testR2 n <;> simp [h1, h2]

theorem assignFile_r2 (g : FileGroup) (n : String) :
    (assignFile g n).r2 = if claimIsR2 n then some n else g.r2 := by
  unfold assignFile claimIsR2
  by_cases h1 : testR1 n <;> by_cases h2 : testR2 n <;> simp [h1, h2]

theorem updateGroups_keys (gs : List (String × FileGroup)) (key : String)
    (f : FileGroup → FileGroup) :
    (updateGroups gs key f).map Prod.fst =
      if key ∈ gs.map Prod.fst then gs.map Prod.fst
      else gs.map Prod.fst ++ [key] := by
  induction gs with
  | nil => simp [updateGroups]
  | cons kg rest ih =>
      obtain ⟨k, g⟩ := kg
      by_cases hk : k = key
      · subst hk
        simp [updateGroups]
      · have hkey : (key ∈ k :: rest.map Prod.fst) ↔
            key ∈ rest.map Prod.fst := by
          constructor
          · intro h
            rcases List.mem_cons.mp h with h | h
            · exact absurd h.symm hk
            · exact h
          · exact fun h => List.mem_cons_of_mem _ h
        by_cases hmem : key ∈ rest.map Prod.fst
        · rw [List.map_cons, if_pos (hkey.mpr hmem)]
          simp only [updateGroups, if_neg hk, List.map_cons, ih,
            if_pos hmem]
        · rw [List.map_cons, if_neg (fun hc => hmem (hkey.mp hc))]
          simp only [updateGroups, if_neg hk, List.map_cons, ih,
            if_neg hmem]
          simp

theorem lookup_updateGroups_self (gs : List (String × FileGroup))
    (key : String) (f : FileGroup → FileGroup) :
    List.lookup key (updateGroups gs key f) =
      some (f ((List.lookup key gs).getD emptyGroup)) := by
  induction gs with
  | nil => simp [updateGroups]
  | cons kg rest ih =>
      obtain ⟨k, g⟩ := kg
      by_cases hk : k = key
      · subst hk
        simp [updateGroups]
      · simp [updateGroups, if_neg hk, List.lookup,
          beq_false_of_ne (fun h => hk h.symm), ih]

theorem lookup_updateGroups_other (gs : List (String × FileGroup))
    (key k : String) (f : FileGroup → FileGroup) (hne : k ≠ key) :
    List.lookup k (updateGroups gs key f) = List.lookup k gs := by
  induction gs with
  | nil => simp [updateGroups, List.lookup, beq_false_of_ne hne]
  | cons kg rest ih =>
      obtain ⟨k0, g⟩ := kg
      by_cases hk : k0 = key
      · subst hk
        simp [updateGroups, List.lookup, beq_false_of_ne hne]
      · by_cases hkk : k = k0
        · subst hkk
          simp [updateGroups, if_neg hk, List.lookup]
        · simp [updateGroups, if_neg hk, List.lookup,
            beq_false_of_ne hkk, ih]

theorem firstOccurKeys_filter (p : String → Bool) (l : List String) :
    firstOccurKeys (l.filter p) = (firstOccurKeys l).filter p := by
  induction l with
  | nil => simp [firstOccurKeys]
  | cons a t ih =>
      by_cases hp : p a = true
      · rw [List.filter_cons_of_pos (by simp [hp])]
        simp only [firstOccurKeys]
        rw [ih, List.filter_cons_of_pos (by simp [hp])]
        congr 1
        rw [List.filter_filter, List.filter_filter]
        congr 1
        funext b
        exact Bool.and_comm _ _
      · have hpa : p a = false := by simpa using hp
        rw [List.filter_cons_of_neg (by simp [hpa]), ih]
        simp only [firstOccurKeys]
        rw [List.filter_cons_of_neg (by simp [hpa]), List.filter_filter]
        congr 1
        funext b
        by_cases hba : b = a
        · subst hba
          simp [hpa]
        · simp [hba]

theorem mem_firstOccurKeys (a : String) (l : List String) :
    a ∈ firstOccurKeys l ↔ a ∈ l := by
  induction l with
  | nil => simp [firstOccurKeys]
  | cons b t ih =>
      simp only [firstOccurKeys, List.mem_cons, List.mem_filter]
      constructor
      · rintro (rfl | ⟨h, _⟩)
        · exact Or.inl rfl
        · exact Or.inr (ih.mp h)
      · rintro (rfl | h)
        · exact Or.inl rfl
        · by_cases hab : a = b
          · exact Or.inl hab
          · exact Or.inr ⟨ih.mpr h, by simpa using hab⟩

theorem firstOccurKeys_nodup (l : List String) :
    (firstOccurKeys l).Nodup := by
  induction l with
  | nil => simp [firstOccurKeys]
  | cons a t ih =>
      simp only [firstOccurKeys, List.nodup_cons]
      refine ⟨?_, ih.filter _⟩
      intro hmem
      exact absurd (List.mem_filter.mp hmem).2 (by simp)

theorem buildGroupsFrom_keys (files : List String)
    (gs : List (String × FileGroup)) :
    (buildGroupsFrom gs files).map Prod.fst =
      gs.map Prod.fst ++
        firstOccurKeys ((files.map sampleIdOf).filter
          (fun k => k ∉ gs.map Prod.fst)) := by
  induction files generalizing gs with
  | nil => simp [buildGroupsFrom, firstOccurKeys]
  | cons f rest ih =>
      have hstep : buildGroupsFrom gs (f :: rest) =
          buildGroupsFrom
            (updateGroups gs (sampleIdOf f) (fun g => assignFile g f))
            rest := rfl
      rw [hstep, ih, updateGroups_keys]
      by_cases hm : sampleIdOf f ∈ gs.map Prod.fst
      · rw [if_pos hm, List.map_cons,
          List.filter_cons_of_neg (by simp [hm])]
      · rw [if_neg hm, List.map_cons,
          List.filter_cons_of_pos (by simp [hm])]
        simp only [firstOccurKeys, List.append_assoc, List.cons_append,
          List.nil_append]
        congr 2
        have hpred : ∀ k : String,
            (decide (k ∉ gs.map Prod.fst ++ [sampleIdOf f])) =
              ((decide (k ≠ sampleIdOf f)) &&
                (decide (k ∉ gs.map Prod.fst))) := by
          intro k
          by_cases h1 : k ∈ gs.map Prod.fst <;>
            by_cases h2 : k = sampleIdOf f <;> simp [h1, h2]
        calc firstOccurKeys ((rest.map sampleIdOf).filter
                (fun k => k ∉ gs.map Prod.fst ++ [sampleIdOf f]))
            = firstOccurKeys (((rest.map sampleIdOf).filter
                (fun k => k ∉ gs.map Prod.fst)).filter
                  (fun k => k ≠ sampleIdOf f)) := by
              rw [funext hpred, ← List.filter_filter]
          _ = (firstOccurKeys ((rest.map sampleIdOf).filter
                (fun k => k ∉ gs.map Prod.fst))).filter
                  (fun k => k ≠ sampleIdOf f) := by
              rw [firstOccurKeys_filter]

theorem buildGroupsFrom_lookup (files : List String)
    (gs : List (String × FileGroup)) (k : String) :
    List.lookup k (buildGroupsFrom gs files) =
      match List.lookup k gs with
      | some g => some ((groupFiles files k).foldl assignFile g)
      | none =>
          if k ∈ files.map sampleIdOf then
            some ((groupFiles files k).foldl assignFile emptyGroup)
          else none := by
  induction files generalizing gs with
  | nil =>
      cases h : List.lookup k gs <;> simp [buildGroupsFrom, groupFiles, h]
  | cons f rest ih =>
      have hstep : buildGroupsFrom gs (f :: rest) =
          buildGroupsFrom
            (updateGroups gs (sampleIdOf f) (fun g => assignFile g f))
            rest := rfl
      rw [hstep, ih]
      by_cases hk : k = sampleIdOf f
      · have hlk : List.lookup k
            (updateGroups gs (sampleIdOf f) (fun g => assignFile g f)) =
              some (assignFile ((List.lookup k gs).getD emptyGroup) f) := by
          rw [hk]
          exact lookup_updateGroups_self gs (sampleIdOf f) _
        rw [hlk]
        have hgf : groupFiles (f :: rest) k = f :: groupFiles rest k := by
          unfold groupFiles
          rw [List.filter_cons_of_pos (by simp [hk])]
        cases hg : List.lookup k gs with
        | some g =>
            simp only [hg, Option.getD_some, hgf, List.foldl_cons]
        | none =>
            simp only [hg, Option.getD_none, hgf, List.foldl_cons,
              List.map_cons]
            rw [if_pos (by simp [hk])]
      · rw [lookup_updateGroups_other gs (sampleIdOf f) k _ hk]
        have hgf : groupFiles (f :: rest) k = groupFiles rest k := by
          unfold groupFiles
          rw [List.filter_cons_of_neg (by simp [Ne.symm hk])]
        cases hg : List.lookup k gs with
        | some g => simp only [hg, hgf]
        | none =>
            simp only [hg, hgf, List.map_cons]
            have : (k ∈ sampleIdOf f :: rest.map sampleIdOf) ↔
                k ∈ rest.map sampleIdOf := by
              constructor
              · intro h
                rcases List.mem_cons.mp h with h | h
                · exact absurd h hk
                · exact h
              · exact fun h => List.mem_cons_of_mem _ h
            by_cases hmem : k ∈ rest.map sampleIdOf
            · rw [if_pos hmem, if_pos (this.mpr hmem)]
            · rw [if_neg hmem, if_neg (fun hc => hmem (this.mp hc))]

theorem assoc_eq_map_of_lookup (l : List (String × FileGroup))
    (ks : List String) (v : String → FileGroup)
    (hkeys : l.map Prod.fst = ks) (hnd : ks.Nodup)
    (hv : ∀ k ∈ ks, List.lookup k l = some (v k)) :
    l = ks.map (fun k => (k, v k)) := by
  induction l generalizing ks with
  | nil =>
      subst hkeys
      rfl
  | cons kg t ih =>
      obtain ⟨k0, g⟩ := kg
      subst hkeys
      simp only [List.map_cons]
      have hg : g = v k0 := by
        have h0 := hv k0 (List.mem_cons_self _ _)
        simp only [List.lookup, beq_self_eq_true] at h0
        exact Option.some.inj h0
      have hnotmem : k0 ∉ t.map Prod.fst :=
        (List.nodup_cons.mp hnd).1
      have ht : t = (t.map Prod.fst).map (fun k => (k, v k)) := by
        refine ih (t.map Prod.fst) rfl (List.nodup_cons.mp hnd).2 ?_
        intro k hk
        have hne : (k == k0) = false := by
          refine beq_false_of_ne ?_
          intro h
          subst h
          exact hnotmem hk
        have h1 := hv k (List.mem_cons_of_mem _ hk)
        simpa [List.lookup, hne] using h1
      rw [hg, ← ht]

theorem foldl_assignFile_r1 (l : List String) (g : FileGroup) :
    (l.foldl assignFile g).r1 =
      match (l.filter claimIsR1).getLast? with
      | some x => some x
      | none => g.r1 := by
  induction l using List.reverseRecOn with
  | nil => simp
  | append_singleton l x ih =>
      rw [List.foldl_append, List.foldl_cons, List.foldl_nil,
        List.filter_append]
      by_cases hx : claimIsR1 x
      · rw [assignFile_r1, if_pos hx,
          List.filter_cons_of_pos (by simpa using hx)]
        simp
      · rw [assignFile_r1, if_neg hx,
          List.filter_cons_of_neg (by simpa using hx)]
        simpa using ih

theorem foldl_assignFile_r2 (l : List String) (g : FileGroup) :
    (l.foldl assignFile g).r2 =
      match (l.filter claimIsR2).getLast? with
      | some x => some x
      | none => g.r2 := by
  induction l using List.reverseRecOn with
  | nil => simp
  | append_singleton l x ih =>
      rw [List.foldl_append, List.foldl_cons, List.foldl_nil,
        List.filter_append]
      by_cases hx : claimIsR2 x
      · rw [assignFile_r2, if_pos hx,
          List.filter_cons_of_pos (by simpa using hx)]
        simp
      · rw [assignFile_r2, if_neg hx,
          List.filter_cons_of_neg (by simpa using hx)]
        simpa using ih

theorem sampleIdOf_eq_of_groupR1 (files : List String) (k r1 : String)
    (hr : groupR1 files k = some r1) : sampleIdOf r1 = k := by
  have hmem : r1 ∈ (groupFiles files k).filter claimIsR1 := by
    obtain ⟨hne, heq⟩ :=
      List.mem_getLast?_eq_getLast (Option.mem_def.mpr hr)
    exact heq ▸ List.getLast_mem hne
  have hmem2 : r1 ∈ groupFiles files k := (List.mem_filter.mp hmem).1
  have := (List.mem_filter.mp hmem2).2
  simpa using this

theorem filterMap_pointwise {α β : Type} (l : List α) (f g : α → Option β)
    (h : ∀ a ∈ l, f a = g a) : l.filterMap f = l.filterMap g := by
  induction l with
  | nil => rfl
  | cons a t ih =>
      rw [List.filterMap_cons, List.filterMap_cons,
        h a (List.mem_cons_self _ _),
        ih (fun b hb => h b (List.mem_cons_of_mem _ hb))]

/-- Claim C6: `processFiles` is exactly the claim's description: files
are grouped by the sample identifier obtained by the `_R1`/`_R2`-segment
and `.fastq`-extension stripping, a name matching `_R1` or `_1.fastq` is
assigned as the R1 file, a name matching `_R2` or `_2.fastq` as the R2
file, every other name defaults to R1 (later assignments overwrite
earlier ones), and one sample is added exactly for each group that has an
R1 file, named by the group's identifier, with R2 optional. -/
theorem process_files_grouping_correct (files : List String) :
    processFiles files = processFilesSpec files := by
  have hkeys : (buildGroups files).map Prod.fst =
      firstOccurKeys (files.map sampleIdOf) := by
    rw [buildGroups_eq_from, buildGroupsFrom_keys]
    simp
  have hlookup : ∀ k ∈ firstOccurKeys (files.map sampleIdOf),
      List.lookup k (buildGroups files) =
        some ((groupFiles files k).foldl assignFile emptyGroup) := by
    intro k hk
    rw [buildGroups_eq_from, buildGroupsFrom_lookup]
    simp only [List.lookup]
    rw [if_pos ((mem_firstOccurKeys k _).mp hk)]
  have hassoc := assoc_eq_map_of_lookup (buildGroups files)
    (firstOccurKeys (files.map sampleIdOf))
    (fun k => (groupFiles files k).foldl assignFile emptyGroup)
    hkeys (firstOccurKeys_nodup _) hlookup
  rw [processFiles, hassoc, List.filterMap_map, processFilesSpec]
  apply filterMap_pointwise
  intro k hk
  simp only [Function.comp]
  have hr1 : ((groupFiles files k).foldl assignFile emptyGroup).r1 =
      groupR1 files k := by
    rw [foldl_assignFile_r1]
    unfold groupR1
    cases ((groupFiles files k).filter claimIsR1).getLast? <;>
      simp [emptyGroup]
  have hr2 : ((groupFiles files k).foldl assignFile emptyGroup).r2 =
      groupR2 files k := by
    rw [foldl_assignFile_r2]
    unfold groupR2
    cases ((groupFiles files k).filter claimIsR2).getLast? <;>
      simp [emptyGroup]
  rw [hr1, hr2]
  cases hg : groupR1 files k with
  | none => rfl
  | some r1 =>
      simp only []
      rw [sampleIdOf_eq_of_groupR1 files k r1 hg]

/-! ## The create-run wizard (CreateRun)

The wizard walks `mode → samples → settings → review`
(`steps`, `nextStep`, `prevStep`); each input control is rendered only on
its own step, the Next/Create button is disabled unless `canProceed()`
holds (and while the mutation is pending), and only the Next click on the
review step fires `createRunMutation.mutate()`.  The primer scheme select
offers a fixed list of non-empty option values and starts at
`ARTIC-V5.3.2`. -/

/-- The wizard steps (`type Step`). -/
inductive WStep
  | mode
  | samples
  | settings
  | review
deriving DecidableEq, Repr

/-- Pipeline mode (`'amplicon' | 'shotgun'`). -/
inductive PipelineMode
  | amplicon
  | shotgun
deriving DecidableEq, Repr

/-- The primer scheme option values of the settings select. -/
def schemeOptions : List String :=
  ["ARTIC-V5.3.2", "ARTIC-V4.1", "ARTIC-V3", "Midnight-1200",
   "Midnight-IDT", "swift", "custom"]

/-- The run-creation payload assembled by `createRunMutation`
(`primer_scheme: mode === 'amplicon' ? primerScheme : null`). -/
structure CreatePayload where
  name : String
  mode : PipelineMode
  primerScheme : Option String
  sampleCount : Nat
deriving DecidableEq, Repr

/-- The CreateRun component state (its `useState` pieces), plus the
issued run-creation request, if any. -/
structure WizardState where
  step : WStep
  runName : String
  mode : PipelineMode
  primerScheme : String
  samples : List String
  created : Option CreatePayload
deriving DecidableEq, Repr

/-- Initial component state (`useState` defaults). -/
def initWizard : WizardState :=
  ⟨.mode, "", .amplicon, "ARTIC-V5.3.2", [], none⟩

/-- `canProceed()`: run name entered on the mode step, at least one
sample on the samples step, a primer scheme (or shotgun mode) on the
settings step, always true on review. -/
def canProceed (s : WizardState) : Bool :=
  match s.step with
  | .mode => 0 < s.runName.length
  | .samples => 0 < s.samples.length
  | .settings => s.mode == .shotgun || 0 < s.primerScheme.length
  | .review => true

/-- The step following the current one in `steps`. -/
def nextWStep : WStep → WStep
  | .mode => .samples
  | .samples => .settings
  | .settings => .review
  | .review => .review

/-- The step preceding the current one in `steps`. -/
def prevWStep : WStep → WStep
  | .mode => .mode
  | .samples => .mode
  | .settings => .samples
  | .review => .settings

/-- User interactions available in the wizard. -/
inductive WizardEvent
  | setName (v : String)
  | setMode (m : PipelineMode)
  | setScheme (v : String)
  | addSample (n : String)
  | removeSample (i : Nat)
  | next
  | back

/-- One interaction of the wizard: `none` when the control is not
rendered (inputs appear only on their own step) or the button is
disabled.  `next` requires the button enabled (`!canProceed()` disables
it) and no request issued yet (the pending mutation disables it and
success navigates away); on the review step it issues the run-creation
request, otherwise it advances the step.  `back` is disabled on the first
step.  The scheme select only takes its option values. -/
def wizardStep (s : WizardState) (e : WizardEvent) : Option WizardState :=
  match e with
  | .setName v =>
      if s.step = .mode then some { s with runName := v } else none
  | .setMode m =>
      if s.step = .mode then some { s with mode := m } else none
  | .setScheme v =>
      if s.step = .settings ∧ s.mode = .amplicon ∧ v ∈ schemeOptions then
        some { s with primerScheme := v }
      else none
  | .addSample n =>
      if s.step = .samples then
        some { s with samples := s.samples ++ [n] }
      else none
  | .removeSample i =>
      if s.step = .samples then
        some { s with samples := s.samples.eraseIdx i }
      else none
  | .next =>
      if canProceed s = true ∧ s.created = none then
        if s.step = .review then
          some { s with created := some ⟨s.runName, s.mode,
            (if s.mode = .amplicon then some s.primerScheme else none),
            s.samples.length⟩ }
        else some { s with step := nextWStep s.step }
      else none
  | .back =>
      if s.step ≠ .mode then some { s with step := prevWStep s.step }
      else none

/-- States reachable from the initial wizard state by rendered-and-enabled
interactions. -/
inductive WizardReachable : WizardState → Prop
  | init : WizardReachable initWizard
  | step {s s' : WizardState} (e : WizardEvent) :
      WizardReachable s → wizardStep s e = some s' → WizardReachable s'

/-- The wizard invariant: past the mode step the run name is non-empty,
at the settings and review steps at least one sample is present, the
primer scheme is always non-empty, and any issued payload satisfies the
claim's preconditions. -/
def WizardInv (s : WizardState) : Prop :=
  (s.step ≠ .mode → 0 < s.runName.length) ∧
  ((s.step = .settings ∨ s.step = .review) → 0 < s.samples.length) ∧
  0 < s.primerScheme.length ∧
  (∀ p, s.created = some p →
    0 < p.name.length ∧ 0 < p.sampleCount ∧
    (p.mode = .amplicon →
      ∃ sch, p.primerScheme = some sch ∧ 0 < sch.length))

theorem schemeOptions_nonempty :
    ∀ v ∈ schemeOptions, 0 < v.length := by
  decide

theorem wizardInv_init : WizardInv initWizard := by
  refine ⟨?_, ?_, ?_, ?_⟩
  · intro h
    exact absurd rfl h
  · rintro (h | h) <;> cases h
  · decide
  · intro p hp
    cases hp

theorem wizardInv_step {s s' : WizardState} (e : WizardEvent)
    (hinv : WizardInv s) (h : wizardStep s e = some s') : WizardInv s' := by
  obtain ⟨h1, h2, h3, h4⟩ := hinv
  cases e with
  | setName v =>
      simp only [wizardStep] at h
      by_cases hs : s.step = .mode
      · rw [if_pos hs] at h
        obtain rfl := Option.some.inj h
        refine ⟨?_, ?_, h3, h4⟩
        · intro hc
          exact absurd hs hc
        · intro hc
          rcases hc with hc | hc <;> rw [hs] at hc <;> cases hc
      · rw [if_neg hs] at h
        cases h
  | setMode m =>
      simp only [wizardStep] at h
      by_cases hs : s.step = .mode
      · rw [if_pos hs] at h
        obtain rfl := Option.some.inj h
        refine ⟨?_, ?_, h3, h4⟩
        · intro hc
          exact absurd hs hc
        · intro hc
          rcases hc with hc | hc <;> rw [hs] at hc <;> cases hc
      · rw [if_neg hs] at h
        cases h
  | setScheme v =>
      simp only [wizardStep] at h
      by_cases hs : s.step = .settings ∧ s.mode = .amplicon ∧
          v ∈ schemeOptions
      · rw [if_pos hs] at h
        obtain rfl := Option.some.inj h
        exact ⟨h1, h2, schemeOptions_nonempty v hs.2.2, h4⟩
      · rw [if_neg hs] at h
        cases h
  | addSample n =>
      simp only [wizardStep] at h
      by_cases hs : s.step = .samples
      · rw [if_pos hs] at h
        obtain rfl := Option.some.inj h
        refine ⟨h1, ?_, h3, h4⟩
        · intro hc
          rcases hc with hc | hc <;> rw [hs] at hc <;> cases hc
      · rw [if_neg hs] at h
        cases h
  | removeSample i =>
      simp only [wizardStep] at h
      by_cases hs : s.step = .samples
      · rw [if_pos hs] at h
        obtain rfl := Option.some.inj h
        refine ⟨h1, ?_, h3, h4⟩
        · intro hc
          rcases hc with hc | hc <;> rw [hs] at hc <;> cases hc
      · rw [if_neg hs] at h
        cases h
  | next =>
      simp only [wizardStep] at h
      by_cases hg : canProceed s = true ∧ s.created = none
      · rw [if_pos hg] at h
        by_cases hs : s.step = .review
        · rw [if_pos hs] at h
          obtain rfl := Option.some.inj h
          refine ⟨h1, h2, h3, ?_⟩
          intro p hp
          obtain rfl := Option.some.inj hp
          refine ⟨h1 (by rw [hs]; intro hc; cases hc), ?_, ?_⟩
          · exact h2 (Or.inr hs)
          · intro hm
            have hm2 : s.mode = .amplicon := hm
            refine ⟨s.primerScheme, ?_, h3⟩
            show (if s.mode = PipelineMode.amplicon then
                some s.primerScheme else none) = some s.primerScheme
            rw [if_pos hm2]
        · rw [if_neg hs] at h
          obtain rfl := Option.some.inj h
          cases hstep : s.step with
          | mode =>
              have hcan2 : 0 < s.runName.length := by
                have hc := hg.1
                unfold canProceed at hc
                rw [hstep] at hc
                simpa using hc
              refine ⟨?_, ?_, h3, h4⟩
              · intro _
                exact hcan2
              · intro hc
                rcases hc with hc | hc <;>
                  simp [hstep, nextWStep] at hc
          | samples =>
              have hcan2 : 0 < s.samples.length := by
                have hc := hg.1
                unfold canProceed at hc
                rw [hstep] at hc
                simpa using hc
              refine ⟨?_, ?_, h3, h4⟩
              · intro _
                exact h1 (by rw [hstep]; intro hc; cases hc)
              · intro _
                exact hcan2
          | settings =>
              refine ⟨?_, ?_, h3, h4⟩
              · intro _
                exact h1 (by rw [hstep]; intro hc; cases hc)
              · intro _
                exact h2 (Or.inl hstep)
          | review => exact absurd hstep hs
      · rw [if_neg hg] at h
        cases h
  | back =>
      simp only [wizardStep] at h
      by_cases hs : s.step ≠ .mode
      · rw [if_pos hs] at h
        obtain rfl := Option.some.inj h
        cases hstep : s.step with
        | mode => exact absurd hstep hs
        | samples =>
            refine ⟨?_, ?_, h3, h4⟩
            · intro hc
              simp [hstep, prevWStep] at hc
            · intro hc
              rcases hc with hc | hc <;> simp [hstep, prevWStep] at hc
        | settings =>
            refine ⟨?_, ?_, h3, h4⟩
            · intro _
              exact h1 (by rw [hstep]; intro hc; cases hc)
            · intro hc
              rcases hc with hc | hc <;> simp [hstep, prevWStep] at hc
        | review =>
            refine ⟨?_, ?_, h3, h4⟩
            · intro _
              exact h1 (by rw [hstep]; intro hc; cases hc)
            · intro _
              exact h2 (Or.inr hstep)
      · rw [if_neg hs] at h
        cases h

theorem wizardInv_reachable {s : WizardState} (h : WizardReachable s) :
    WizardInv s := by
  induction h with
  | init => exact wizardInv_init
  | step e _ hstep ih => exact wizardInv_step e ih hstep

/-- Claim C10: any run-creation request the wizard can issue satisfies
the per-step preconditions (non-empty run name, at least one sample, and
in amplicon mode a non-empty primer scheme); reaching the review step
already guarantees those preconditions; a request is issued only by the
Next click on the review step; and Next never fires while `canProceed()`
is false. -/
theorem create_run_wizard_guarded :
    (∀ s, WizardReachable s → ∀ p, s.created = some p →
      0 < p.name.length ∧ 0 < p.sampleCount ∧
      (p.mode = .amplicon →
        ∃ sch, p.primerScheme = some sch ∧ 0 < sch.length)) ∧
    (∀ s, WizardReachable s → s.step = .review →
      0 < s.runName.length ∧ 0 < s.samples.length ∧
      (s.mode = .amplicon → 0 < s.primerScheme.length)) ∧
    (∀ s e s', wizardStep s e = some s' → s'.created ≠ s.created →
      s.step = .review ∧ e = WizardEvent.next ∧
      canProceed s = true) ∧
    (∀ s s', wizardStep s .next = some s' → canProceed s = true) := by
  refine ⟨?_, ?_, ?_, ?_⟩
  · intro s hs p hp
    exact (wizardInv_reachable hs).2.2.2 p hp
  · intro s hs hstep
    obtain ⟨h1, h2, h3, _⟩ := wizardInv_reachable hs
    exact ⟨h1 (by rw [hstep]; intro hc; cases hc), h2 (Or.inr hstep),
      fun _ => h3⟩
  · intro s e s' h hne
    cases e with
    | setName v =>
        simp only [wizardStep] at h
        by_cases hs : s.step = .mode
        · rw [if_pos hs] at h
          obtain rfl := Option.some.inj h
          exact absurd rfl hne
        · rw [if_neg hs] at h
          cases h
    | setMode m =>
        simp only [wizardStep] at h
        by_cases hs : s.step = .mode
        · rw [if_pos hs] at h
          obtain rfl := Option.some.inj h
          exact absurd rfl hne
        · rw [if_neg hs] at h
          cases h
    | setScheme v =>
        simp only [wizardStep] at h
        by_cases hs : s.step = .settings ∧ s.mode = .amplicon ∧
            v ∈ schemeOptions
        · rw [if_pos hs] at h
          obtain rfl := Option.some.inj h
          exact absurd rfl hne
        · rw [if_neg hs] at h
          cases h
    | addSample n =>
        simp only [wizardStep] at h
        by_cases hs : s.step = .samples
        · rw [if_pos hs] at h
          obtain rfl := Option.some.inj h
          exact absurd rfl hne
        · rw [if_neg hs] at h
          cases h
    | removeSample i =>
        simp only [wizardStep] at h
        by_cases hs : s.step = .samples
        · rw [if_pos hs] at h
          obtain rfl := Option.some.inj h
          exact absurd rfl hne
        · rw [if_neg hs] at h
          cases h
    | next =>
        simp only [wizardStep] at h
        by_cases hg : canProceed s = true ∧ s.created = none
        · rw [if_pos hg] at h
          by_cases hs : s.step = .review
          · exact ⟨hs, rfl, hg.1⟩
          · rw [if_neg hs] at h
            obtain rfl := Option.some.inj h
            exact absurd rfl hne
        · rw [if_neg hg] at h
          cases h
    | back =>
        simp only [wizardStep] at h
        by_cases hs : s.step ≠ .mode
        · rw [if_pos hs] at h
          obtain rfl := Option.some.inj h
          exact absurd rfl hne
        · rw [if_neg hs] at h
          cases h
  · intro s s' h
    simp only [wizardStep] at h
    by_cases hg : canProceed s = true ∧ s.created = none
    · exact hg.1
    · rw [if_neg hg] at h
      cases h

/-- Closed witness for the wizard theorem: a concrete run-through (name
`run1`, one sample, default primer scheme) reaches the review step and
issues a payload satisfying the preconditions. -/
theorem create_run_wizard_witness :
    0 < ("run1" : String).length ∧ 0 < 1 ∧
    (PipelineMode.amplicon = PipelineMode.amplicon →
      ∃ sch, (some "ARTIC-V5.3.2" : Option String) = some sch ∧
        0 < sch.length) := by
  have h1 : WizardReachable
      ⟨.mode, "run1", .amplicon, "ARTIC-V5.3.2", [], none⟩ :=
    WizardReachable.step (WizardEvent.setName "run1")
      WizardReachable.init (by decide)
  have h2 : WizardReachable
      ⟨.samples, "run1", .amplicon, "ARTIC-V5.3.2", [], none⟩ :=
    WizardReachable.step WizardEvent.next h1 (by decide)
  have h3 : WizardReachable
      ⟨.samples, "run1", .amplicon, "ARTIC-V5.3.2", ["a_R1.fastq"],
        none⟩ :=
    WizardReachable.step (WizardEvent.addSample "a_R1.fastq") h2
      (by decide)
  have h4 : WizardReachable
      ⟨.settings, "run1", .amplicon, "ARTIC-V5.3.2", ["a_R1.fastq"],
        none⟩ :=
    WizardReachable.step WizardEvent.next h3 (by decide)
  have h5 : WizardReachable
      ⟨.review, "run1", .amplicon, "ARTIC-V5.3.2", ["a_R1.fastq"],
        none⟩ :=
    WizardReachable.step WizardEvent.next h4 (by decide)
  have h6 : WizardReachable
      ⟨.review, "run1", .amplicon, "ARTIC-V5.3.2", ["a_R1.fastq"],
        some ⟨"run1", .amplicon, some "ARTIC-V5.3.2", 1⟩⟩ :=
    WizardReachable.step WizardEvent.next h5 (by decide)
  exact create_run_wizard_guarded.1 _ h6
    ⟨"run1", .amplicon, some "ARTIC-V5.3.2", 1⟩ rfl

end VGAP
